import Mathlib

/-!
Verification of the TabsToSpaces byte transducer (`src/tabs_to_spaces.cpp`,
`src/tabs_to_spaces.hpp`) against its natural-language specification.

The transducer is embedded shallowly: bytes are `Nat` (values of the C++
`char` after conversion; only the distinguished bytes 0, 9, 10, 13, 32
matter), the output string is a `List Nat` of written bytes, and the C++
`while (read != readEnd)` loop becomes a fuel-indexed recursion where the
fuel is the number of remaining loop iterations (each iteration consumes at
least one input byte, so `input.length` fuel always suffices; the public
wrapper `tabsToSpaces` passes exactly that).
-/

namespace TabsToSpaces

/-- Line-ending handling mode, mirroring `enum class LineEndingMode`
in `tabs_to_spaces.hpp` (`Ignore`, `Lf`, `CrLf`). -/
inductive LineEndingMode
  | Ignore
  | Lf
  | CrLf
deriving DecidableEq, Repr

/-- Trailing-whitespace handling, mirroring `enum class WhitespaceBeforeNewLines`
in `tabs_to_spaces.hpp` (`DoNotTrim`, `Trim`). -/
inductive WhitespaceBeforeNewLines
  | DoNotTrim
  | Trim
deriving DecidableEq, Repr

/-- Configuration record mirroring `struct Config` in `tabs_to_spaces.hpp`.
`tabWidth` is a C++ `int`, modelled as `Int` (it may be non-positive,
which the transducer rejects). -/
structure Config where
  tabWidth : Int := 4
  lineEndingMode : LineEndingMode := LineEndingMode.Ignore
  whitespaceBeforeNewLines : WhitespaceBeforeNewLines := WhitespaceBeforeNewLines.DoNotTrim
deriving DecidableEq, Repr

/-- The tab byte. -/
def TAB : Nat := 9
/-- The line-feed byte. -/
def LF : Nat := 10
/-- The carriage-return byte. -/
def CR : Nat := 13
/-- The space byte. -/
def SP : Nat := 32

/-- Embedding of `newlineProbe` (`tabs_to_spaces.cpp`, lines 34-63).

The C++ function scans a pointer range `[from, to)` and returns a pointer:
`nullptr` on the first byte that is not space/tab/CR/LF (modelled `none`);
`to` when the scan reaches the end of the range (modelled `some []`);
on an LF, either the LF position itself (modelled `some (10 :: rest)`) or,
when a CR immediately precedes the LF and the mode is `Ignore`, the position
of that CR, `from - 1` (modelled `some (13 :: 10 :: rest)`: the local `hasCr`
flag is true exactly when the previous byte of the range was a CR, since
space and tab clear it, so the byte at `from - 1` is `'\r'`).
The second argument is the loop-local `hasCr` flag, initialised to `false`
by the C++ `for` statement. -/
def newlineProbe (lineEndingMode : LineEndingMode) : List Nat → Bool → Option (List Nat)
  | [], _ => some []
  | b :: rest, hasCr =>
    if b = 32 ∨ b = 9 then
      newlineProbe lineEndingMode rest false
    else if b = 13 then
      newlineProbe lineEndingMode rest true
    else if b = 10 then
      if hasCr ∧ lineEndingMode = LineEndingMode.Ignore then
        some (13 :: 10 :: rest)
      else
        some (10 :: rest)
    else
      none

/-- Embedding of `estimateOutputSize` (`tabs_to_spaces.cpp`, lines 68-77):
`fileContents.size() + count('\t') * tabWidth + count('\n')`.
The `lineEndingMode` parameter is taken but unused, exactly as in the C++. -/
def estimateOutputSize (fileContents : List Nat) (tabWidth : Int)
    (lineEndingMode : LineEndingMode) : Int :=
  let tabSpaceEstimate : Int := (fileContents.count 9 : Int) * tabWidth
  let additionalCrCount : Int := (fileContents.count 10 : Int)
  (fileContents.length : Int) + tabSpaceEstimate + additionalCrCount

/-- The column update of the default branch of the transducer
(`tabs_to_spaces.cpp`, lines 155-159):
`column += in != '\0' && in != '\r'; if (column == tabWidth) column = 0;`. -/
def columnAdvance (tabWidth column : Int) (in_ : Nat) : Int :=
  let c : Int := column + (if in_ ≠ 0 ∧ in_ ≠ 13 then 1 else 0)
  if c = tabWidth then 0 else c

/-- Embedding of the main `while (read != readEnd)` loop of `tabsToSpaces`
(`tabs_to_spaces.cpp`, lines 106-167). Arguments after the configuration:
remaining fuel (an upper bound on the remaining loop iterations), the
remaining input (`[read, readEnd)`), the `column` state and the `hasCr`
state. The returned list is the sequence of bytes written through the
`write` cursor by the remaining iterations.

On a successful trailing-whitespace probe the C++ sets `read = nlPos` and
`continue`s, keeping `column` and `hasCr`; here that is the recursive call
on the probe result. `trim`, `lf` and `crlf` are the booleans computed once
at lines 102-104. -/
def t2sLoop (tabWidth : Int) (lineEndingMode : LineEndingMode) (trim : Bool) :
    Nat → List Nat → Int → Bool → List Nat
  | 0, _, _, _ => []
  | _ + 1, [], _, _ => []
  | fuel + 1, in_ :: rest, column, hasCr =>
    if in_ = 9 then
      match (if trim then newlineProbe lineEndingMode (in_ :: rest) false else none) with
      | some nl => t2sLoop tabWidth lineEndingMode trim fuel nl column hasCr
      | none =>
        (if lineEndingMode = LineEndingMode.Lf ∧ hasCr then [13] else [])
          ++ List.replicate (tabWidth - column).toNat 32
          ++ t2sLoop tabWidth lineEndingMode trim fuel rest 0 false
    else if in_ = 10 then
      (if lineEndingMode = LineEndingMode.CrLf ∧ ¬hasCr then [13] else [])
        ++ 10 :: t2sLoop tabWidth lineEndingMode trim fuel rest 0 false
    else
      match (if trim ∧ in_ = 32 then newlineProbe lineEndingMode (in_ :: rest) false else none) with
      | some nl => t2sLoop tabWidth lineEndingMode trim fuel nl column hasCr
      | none =>
        (if lineEndingMode = LineEndingMode.Lf ∧ hasCr then [13] else [])
          ++ (if ¬(lineEndingMode = LineEndingMode.Lf ∧ in_ = 13) then [in_] else [])
          ++ t2sLoop tabWidth lineEndingMode trim fuel rest
              (columnAdvance tabWidth column in_) (decide (in_ = 13))

/-- The `std::invalid_argument` message thrown by `tabsToSpaces`
(`tabs_to_spaces.cpp`, line 87). -/
def invalidConfigMessage : String := "tabsToSpaces: tab width must be greater than zero"

/-- Embedding of the string-transforming `tabsToSpaces` overload
(`tabs_to_spaces.cpp`, lines 80-171). The C++ throw of
`std::invalid_argument` when `tabWidth < 1` is modelled as `Except.error`;
otherwise the loop runs from state `column = 0`, `hasCr = false` over the
whole input (fuel `fileContents.length` — each loop iteration advances
`read` by at least one byte). -/
def tabsToSpaces (fileContents : List Nat) (config : Config) : Except String (List Nat) :=
  if config.tabWidth < 1 then
    Except.error invalidConfigMessage
  else
    Except.ok (t2sLoop config.tabWidth config.lineEndingMode
      (decide (config.whitespaceBeforeNewLines = WhitespaceBeforeNewLines.Trim))
      fileContents.length fileContents 0 false)

/-- Conversion of a string literal to its byte sequence (the C++ operates
on `std::string_view` bytes; all test data is ASCII). -/
def str2bytes (s : String) : List Nat :=
  s.toList.map Char.toNat

end TabsToSpaces

namespace TabsToSpaces

/-! Validation of the embedding against the complete test suite of
`test_tabsToSpaces` (`tabs_to_spaces.cpp`, lines 256-382). -/

example : tabsToSpaces (str2bytes "") ⟨4, .Ignore, .DoNotTrim⟩ = .ok (str2bytes "") := rfl

example : tabsToSpaces (str2bytes " we have here\n\r\r  no tabs   at all\r\n\n \n\r")
    ⟨4, .Ignore, .DoNotTrim⟩
    = .ok (str2bytes " we have here\n\r\r  no tabs   at all\r\n\n \n\r") := rfl

example : tabsToSpaces (str2bytes "\t \t") ⟨4, .Ignore, .DoNotTrim⟩
    = .ok (str2bytes "        ") := rfl

example : tabsToSpaces (str2bytes "\t \t") ⟨2, .Ignore, .DoNotTrim⟩
    = .ok (str2bytes "    ") := rfl

example : tabsToSpaces (str2bytes "\t \t") ⟨1, .Ignore, .DoNotTrim⟩
    = .ok (str2bytes "   ") := rfl

example : tabsToSpaces (str2bytes "once\t\n \tupon a\ttime\r\n\twe") ⟨3, .Ignore, .DoNotTrim⟩
    = .ok (str2bytes "once  \n   upon a   time\r\n   we") := rfl

example : tabsToSpaces (str2bytes "..\r\n..\r..\r\r..\n..\n\n..\n\r..") ⟨4, .Ignore, .DoNotTrim⟩
    = .ok (str2bytes "..\r\n..\r..\r\r..\n..\n\n..\n\r..") := rfl

example : tabsToSpaces (str2bytes "..\r\n..\r..\r\r..\n..\n\n..\n\r..") ⟨4, .Lf, .DoNotTrim⟩
    = .ok (str2bytes "..\n..\r..\r\r..\n..\n\n..\n\r..") := rfl

example : tabsToSpaces (str2bytes "..\r\n..\r..\r\r..\n..\n\n..\n\r..") ⟨4, .CrLf, .DoNotTrim⟩
    = .ok (str2bytes "..\r\n..\r..\r\r..\r\n..\r\n\r\n..\r\n\r..") := rfl

example : tabsToSpaces (str2bytes "..\t\r\n\t..\t\r\t..\t\r\r\t..\t\n\t..\t\n\n\t..\t\n\r\t..")
    ⟨4, .Ignore, .DoNotTrim⟩
    = .ok (str2bytes "..  \r\n    ..  \r    ..  \r\r    ..  \n    ..  \n\n    ..  \n\r    ..") := rfl

example : tabsToSpaces (str2bytes "..\t\r\n\t..\t\r\t..\t\r\r\t..\t\n\t..\t\n\n\t..\t\n\r\t..")
    ⟨4, .Lf, .DoNotTrim⟩
    = .ok (str2bytes "..  \n    ..  \r    ..  \r\r    ..  \n    ..  \n\n    ..  \n\r    ..") := rfl

example : tabsToSpaces (str2bytes "..\t\r\n\t..\t\r\t..\t\r\r\t..\t\n\t..\t\n\n\t..\t\n\r\t..")
    ⟨4, .CrLf, .DoNotTrim⟩
    = .ok (str2bytes "..  \r\n    ..  \r    ..  \r\r    ..  \r\n    ..  \r\n\r\n    ..  \r\n\r    ..") := rfl

example : tabsToSpaces (str2bytes "\tline \t \nanother line\t\r\n") ⟨4, .Ignore, .Trim⟩
    = .ok (str2bytes "    line\nanother line\r\n") := rfl

example : tabsToSpaces (str2bytes "\tline \t \nanother line\t\r\n") ⟨4, .Lf, .Trim⟩
    = .ok (str2bytes "    line\nanother line\n") := rfl

example : tabsToSpaces (str2bytes "\tline \t \nanother line\t\r\n") ⟨4, .CrLf, .Trim⟩
    = .ok (str2bytes "    line\r\nanother line\r\n") := rfl

example : tabsToSpaces (str2bytes "..\t\r\n\t..\t\r\t..\t\r\r\t..\t\n\t..\t\n\n\t..\t\n\r\t..")
    ⟨4, .Ignore, .Trim⟩
    = .ok (str2bytes "..\r\n    ..  \r    ..  \r\r    ..\n    ..\n\n    ..\n\r    ..") := rfl

example : tabsToSpaces (str2bytes "..\t\r\n\t..\t\r\t..\t\r\r\t..\t\n\t..\t\n\n\t..\t\n\r\t..")
    ⟨4, .Lf, .Trim⟩
    = .ok (str2bytes "..\n    ..  \r    ..  \r\r    ..\n    ..\n\n    ..\n\r    ..") := rfl

example : tabsToSpaces (str2bytes "..\t\r\n\t..\t\r\t..\t\r\r\t..\t\n\t..\t\n\n\t..\t\n\r\t..")
    ⟨4, .CrLf, .Trim⟩
    = .ok (str2bytes "..\r\n    ..  \r    ..  \r\r    ..\r\n    ..\r\n\r\n    ..\r\n\r    ..") := rfl

/-! Basic facts about `newlineProbe`. -/

/-- Bytes the probe scans through without terminating: space, tab, CR. -/
def probeWs (b : Nat) : Prop := b = 32 ∨ b = 9 ∨ b = 13

instance (b : Nat) : Decidable (probeWs b) := by unfold probeWs; infer_instance

/-- The `hasCr` flag after the probe scans a byte list `p`, starting from `c`:
space and tab clear it, CR sets it, other bytes are never scanned past. -/
def crFlag (c : Bool) (p : List Nat) : Bool :=
  p.foldl (fun _ x => decide (x = 13)) c

theorem crFlag_nil (c : Bool) : crFlag c [] = c := rfl

theorem crFlag_cons (c : Bool) (b : Nat) (p : List Nat) :
    crFlag c (b :: p) = crFlag (decide (b = 13)) p := rfl

theorem crFlag_getLast (c : Bool) (p : List Nat) :
    crFlag c p = (match p.getLast? with
      | none => c
      | some y => decide (y = 13)) := by
  induction p generalizing c with
  | nil => rfl
  | cons b p ih =>
    rw [crFlag_cons, ih]
    cases p with
    | nil => rfl
    | cons y ys =>
      rw [List.getLast?_cons_cons]
      cases hy : (y :: ys).getLast? with
      | none => simp at hy
      | some z => rfl

theorem newlineProbe_sp_tab (m : LineEndingMode) (b : Nat) (rest : List Nat) (c : Bool)
    (h : b = 32 ∨ b = 9) :
    newlineProbe m (b :: rest) c = newlineProbe m rest false := by
  simp [newlineProbe, h]

theorem newlineProbe_cr (m : LineEndingMode) (rest : List Nat) (c : Bool) :
    newlineProbe m (13 :: rest) c = newlineProbe m rest true := by
  simp [newlineProbe]

theorem newlineProbe_lf (m : LineEndingMode) (rest : List Nat) (c : Bool) :
    newlineProbe m (10 :: rest) c =
      (if c ∧ m = LineEndingMode.Ignore then some (13 :: 10 :: rest)
       else some (10 :: rest)) := by
  simp [newlineProbe]

theorem newlineProbe_other (m : LineEndingMode) (b : Nat) (rest : List Nat) (c : Bool)
    (h1 : b ≠ 32) (h2 : b ≠ 9) (h3 : b ≠ 13) (h4 : b ≠ 10) :
    newlineProbe m (b :: rest) c = none := by
  simp [newlineProbe, h1, h2, h3, h4]

theorem newlineProbe_ws_append (m : LineEndingMode) (p : List Nat) :
    ∀ (t : List Nat) (c : Bool), (∀ x ∈ p, probeWs x) →
      newlineProbe m (p ++ t) c = newlineProbe m t (crFlag c p) := by
  induction p with
  | nil => intro t c _; rfl
  | cons b p ih =>
    intro t c hp
    have hb : probeWs b := hp b (List.mem_cons_self b p)
    have hp' : ∀ x ∈ p, probeWs x := fun x hx => hp x (List.mem_cons_of_mem b hx)
    rcases hb with h32 | h9 | h13
    · rw [List.cons_append, newlineProbe_sp_tab m b _ c (Or.inl h32), ih t false hp',
        crFlag_cons]
      subst h32; rfl
    · rw [List.cons_append, newlineProbe_sp_tab m b _ c (Or.inr h9), ih t false hp',
        crFlag_cons]
      subst h9; rfl
    · subst h13
      rw [List.cons_append, newlineProbe_cr, ih t true hp', crFlag_cons]
      rfl

theorem newlineProbe_all_ws (m : LineEndingMode) (p : List Nat) (c : Bool)
    (hp : ∀ x ∈ p, probeWs x) :
    newlineProbe m p c = some [] := by
  have := newlineProbe_ws_append m p [] c hp
  rw [List.append_nil] at this
  rw [this]
  rfl

theorem newlineProbe_none_of (m : LineEndingMode) (p : List Nat) (d : Nat) (r : List Nat)
    (c : Bool) (hp : ∀ x ∈ p, probeWs x) (hd : ¬probeWs d) (hd10 : d ≠ 10) :
    newlineProbe m (p ++ d :: r) c = none := by
  rw [newlineProbe_ws_append m p (d :: r) c hp]
  have h1 : d ≠ 32 := fun h => hd (Or.inl h)
  have h2 : d ≠ 9 := fun h => hd (Or.inr (Or.inl h))
  have h3 : d ≠ 13 := fun h => hd (Or.inr (Or.inr h))
  exact newlineProbe_other m d r _ h1 h2 h3 hd10

theorem newlineProbe_none_shape (m : LineEndingMode) :
    ∀ (l : List Nat) (c : Bool), newlineProbe m l c = none →
      ∃ p d r, l = p ++ d :: r ∧ (∀ x ∈ p, probeWs x) ∧ ¬probeWs d ∧ d ≠ 10 := by
  intro l
  induction l with
  | nil => intro c h; simp [newlineProbe] at h
  | cons b rest ih =>
    intro c h
    by_cases h32 : b = 32 ∨ b = 9
    · rw [newlineProbe_sp_tab m b rest c h32] at h
      obtain ⟨p, d, r, hl, hp, hd, hd10⟩ := ih false h
      refine ⟨b :: p, d, r, by rw [hl]; rfl, ?_, hd, hd10⟩
      intro x hx
      rcases List.mem_cons.mp hx with hx | hx
      · subst hx; rcases h32 with h | h
        · exact Or.inl h
        · exact Or.inr (Or.inl h)
      · exact hp x hx
    · by_cases h13 : b = 13
      · subst h13
        rw [newlineProbe_cr m rest c] at h
        obtain ⟨p, d, r, hl, hp, hd, hd10⟩ := ih true h
        refine ⟨13 :: p, d, r, by rw [hl]; rfl, ?_, hd, hd10⟩
        intro x hx
        rcases List.mem_cons.mp hx with hx | hx
        · subst hx; exact Or.inr (Or.inr rfl)
        · exact hp x hx
      · by_cases h10 : b = 10
        · subst h10
          rw [newlineProbe_lf m rest c] at h
          split at h <;> simp at h
        · refine ⟨[], b, rest, rfl, by intro x hx; simp at hx, ?_, h10⟩
          intro hws
          rcases hws with h | h | h
          · exact h32 (Or.inl h)
          · exact h32 (Or.inr h)
          · exact h13 h

theorem newlineProbe_none_any_flag (m : LineEndingMode) (l : List Nat) (c c' : Bool)
    (h : newlineProbe m l c = none) : newlineProbe m l c' = none := by
  obtain ⟨p, d, r, hl, hp, hd, hd10⟩ := newlineProbe_none_shape m l c h
  rw [hl]
  exact newlineProbe_none_of m p d r c' hp hd hd10

theorem crFlag_replicate_sp (k : Nat) :
    crFlag false (List.replicate k 32) = false := by
  cases k with
  | zero => rfl
  | succ n =>
    rw [crFlag_getLast]
    have h : (List.replicate (n + 1) 32).getLast? = some 32 := by
      rw [List.getLast?_replicate]
      simp
    rw [h]
    rfl

theorem newlineProbe_replicate_sp (m : LineEndingMode) (k : Nat) (t : List Nat) :
    newlineProbe m (List.replicate k 32 ++ t) false = newlineProbe m t false := by
  rw [newlineProbe_ws_append m _ t false]
  · rw [crFlag_replicate_sp k]
  · intro x hx
    rw [List.eq_of_mem_replicate hx]
    exact Or.inl rfl

theorem newlineProbe_suffix (m : LineEndingMode) :
    ∀ (l : List Nat) (c : Bool) (l' : List Nat), newlineProbe m l c = some l' →
      List.IsSuffix l' l ∨ (c = true ∧ List.IsSuffix l' (13 :: l)) := by
  intro l
  induction l with
  | nil =>
    intro c l' h
    simp [newlineProbe] at h
    subst h
    exact Or.inl List.nil_suffix
  | cons b rest ih =>
    intro c l' h
    by_cases h32 : b = 32 ∨ b = 9
    · rw [newlineProbe_sp_tab m b rest c h32] at h
      rcases ih false l' h with hs | ⟨hc, _⟩
      · exact Or.inl (hs.trans (List.suffix_cons b rest))
      · simp at hc
    · by_cases h13 : b = 13
      · subst h13
        rw [newlineProbe_cr m rest c] at h
        rcases ih true l' h with hs | ⟨_, hs⟩
        · exact Or.inl (hs.trans (List.suffix_cons 13 rest))
        · exact Or.inl hs
      · by_cases h10 : b = 10
        · subst h10
          rw [newlineProbe_lf m rest c] at h
          split at h
          · rename_i hcond
            rw [Option.some_inj] at h
            subst h
            exact Or.inr ⟨by simpa using hcond.1, List.suffix_refl _⟩
          · rw [Option.some_inj] at h
            subst h
            exact Or.inl (List.suffix_refl _)
        · rw [newlineProbe_other m b rest c (fun h => h32 (Or.inl h))
            (fun h => h32 (Or.inr h)) h13 h10] at h
          exact absurd h (by simp)

theorem newlineProbe_suffix_false (m : LineEndingMode) (l l' : List Nat)
    (h : newlineProbe m l false = some l') : List.IsSuffix l' l := by
  rcases newlineProbe_suffix m l false l' h with hs | ⟨hc, _⟩
  · exact hs
  · simp at hc

theorem newlineProbe_length_ws (m : LineEndingMode) (b : Nat) (rest l' : List Nat)
    (hb : b = 32 ∨ b = 9) (h : newlineProbe m (b :: rest) false = some l') :
    l'.length ≤ rest.length := by
  rw [newlineProbe_sp_tab m b rest false hb] at h
  exact (newlineProbe_suffix_false m rest l' h).length_le

/-! Branch equations for `t2sLoop` and facts about `columnAdvance`. -/

theorem columnAdvance_nonneg (w col : Int) (b : Nat) (h : 0 ≤ col) :
    0 ≤ columnAdvance w col b := by
  unfold columnAdvance
  dsimp only
  split_ifs <;> omega

theorem columnAdvance_lt (w col : Int) (b : Nat) (hw : 1 ≤ w) (h0 : 0 ≤ col)
    (hlt : col < w) : columnAdvance w col b < w := by
  unfold columnAdvance
  dsimp only
  split_ifs <;> omega

theorem columnAdvance_le_succ (w col : Int) (b : Nat) :
    columnAdvance w col b = col ∨ columnAdvance w col b = col + 1 ∨
      columnAdvance w col b = 0 := by
  unfold columnAdvance
  dsimp only
  split_ifs <;> omega

theorem columnAdvance_zero_width (w col : Int) (b : Nat) (hb : b = 0 ∨ b = 13)
    (hlt : col < w) : columnAdvance w col b = col := by
  unfold columnAdvance
  dsimp only
  have : ¬(b ≠ 0 ∧ b ≠ 13) := by
    rcases hb with h | h <;> simp [h]
  rw [if_neg this]
  simp only [add_zero]
  rw [if_neg (by omega)]

theorem columnAdvance_wrap (w col : Int) (b : Nat) (hb : b ≠ 0 ∧ b ≠ 13)
    (h : col + 1 = w) : columnAdvance w col b = 0 := by
  unfold columnAdvance
  dsimp only
  rw [if_pos hb, if_pos h]

theorem t2sLoop_zero_fuel (w : Int) (m : LineEndingMode) (trim : Bool)
    (l : List Nat) (col : Int) (cr : Bool) :
    t2sLoop w m trim 0 l col cr = [] := by
  simp [t2sLoop]

theorem t2sLoop_nil (w : Int) (m : LineEndingMode) (trim : Bool)
    (fuel : Nat) (col : Int) (cr : Bool) :
    t2sLoop w m trim fuel [] col cr = [] := by
  cases fuel <;> simp [t2sLoop]

theorem t2sLoop_tab_some (w : Int) (m : LineEndingMode) (fuel : Nat)
    (rest nl : List Nat) (col : Int) (cr : Bool)
    (hpr : newlineProbe m (9 :: rest) false = some nl) :
    t2sLoop w m true (fuel + 1) (9 :: rest) col cr
      = t2sLoop w m true fuel nl col cr := by
  simp [t2sLoop, hpr]

theorem t2sLoop_tab_none (w : Int) (m : LineEndingMode) (trim : Bool) (fuel : Nat)
    (rest : List Nat) (col : Int) (cr : Bool)
    (h : trim = false ∨ newlineProbe m (9 :: rest) false = none) :
    t2sLoop w m trim (fuel + 1) (9 :: rest) col cr
      = (if m = LineEndingMode.Lf ∧ cr then [13] else [])
          ++ List.replicate (w - col).toNat 32
          ++ t2sLoop w m trim fuel rest 0 false := by
  rcases h with h | h
  · subst h; simp [t2sLoop]
  · cases trim <;> simp [t2sLoop, h]

theorem t2sLoop_lf (w : Int) (m : LineEndingMode) (trim : Bool) (fuel : Nat)
    (rest : List Nat) (col : Int) (cr : Bool) :
    t2sLoop w m trim (fuel + 1) (10 :: rest) col cr
      = (if m = LineEndingMode.CrLf ∧ ¬cr then [13] else [])
          ++ 10 :: t2sLoop w m trim fuel rest 0 false := by
  simp [t2sLoop]

theorem t2sLoop_sp_some (w : Int) (m : LineEndingMode) (fuel : Nat)
    (rest nl : List Nat) (col : Int) (cr : Bool)
    (hpr : newlineProbe m (32 :: rest) false = some nl) :
    t2sLoop w m true (fuel + 1) (32 :: rest) col cr
      = t2sLoop w m true fuel nl col cr := by
  simp [t2sLoop, hpr]

theorem t2sLoop_other (w : Int) (m : LineEndingMode) (trim : Bool) (fuel : Nat)
    (b : Nat) (rest : List Nat) (col : Int) (cr : Bool)
    (hb9 : b ≠ 9) (hb10 : b ≠ 10)
    (h : ¬(trim = true ∧ b = 32) ∨ newlineProbe m (b :: rest) false = none) :
    t2sLoop w m trim (fuel + 1) (b :: rest) col cr
      = (if m = LineEndingMode.Lf ∧ cr then [13] else [])
          ++ (if ¬(m = LineEndingMode.Lf ∧ b = 13) then [b] else [])
          ++ t2sLoop w m trim fuel rest (columnAdvance w col b) (decide (b = 13)) := by
  have hsc : (if trim ∧ b = 32 then newlineProbe m (b :: rest) false else none) = none := by
    rcases h with h | h
    · rw [if_neg]
      intro hc
      exact h ⟨by cases trim <;> simp_all, hc.2⟩
    · split_ifs <;> [exact h; rfl]
  simp only [t2sLoop, hb9, hb10, if_false, hsc]

/-! Output-length bound: the loop never writes more than
`inputLength + tabCount * tabWidth + lfCount` bytes, plus one byte of
credit for a pending CR in `Lf` mode. -/

theorem length_if_single (c : Prop) [Decidable c] (b : Nat) :
    (((if c then [b] else [] : List Nat)).length : Int) = if c then 1 else 0 := by
  split_ifs <;> simp

theorem t2sLoop_length_le (w : Int) (m : LineEndingMode) (trim : Bool) (hw : 1 ≤ w) :
    ∀ (fuel : Nat) (l : List Nat) (col : Int) (cr : Bool), 0 ≤ col →
      ((t2sLoop w m trim fuel l col cr).length : Int)
        ≤ (l.length : Int) + (l.count 9 : Int) * w + (l.count 10 : Int)
            + (if m = LineEndingMode.Lf ∧ cr then 1 else 0) := by
  intro fuel
  induction fuel with
  | zero =>
    intro l col cr _
    rw [t2sLoop_zero_fuel]
    have h9 : (0 : Int) ≤ (l.count 9 : Int) * w :=
      mul_nonneg (by positivity) (by omega)
    have hB : (0 : Int) ≤ if m = LineEndingMode.Lf ∧ cr then 1 else 0 := by
      split_ifs <;> norm_num
    have hlen : (0 : Int) ≤ (l.length : Int) := by positivity
    have h10 : (0 : Int) ≤ (l.count 10 : Int) := by positivity
    simp only [List.length_nil, Nat.cast_zero]
    linarith
  | succ fuel ih =>
    intro l col cr h0
    cases l with
    | nil =>
      rw [t2sLoop_nil]
      have hB : (0 : Int) ≤ if m = LineEndingMode.Lf ∧ cr then 1 else 0 := by
        split_ifs <;> norm_num
      simp only [List.length_nil, Nat.cast_zero, List.count_nil]
      linarith
    | cons b rest =>
      by_cases hb9 : b = 9
      · subst hb9
        have hc9 : ((9 :: rest).count 9 : Int) = (rest.count 9 : Int) + 1 := by
          simp [List.count_cons]
        have hc10 : ((9 :: rest).count 10 : Int) = (rest.count 10 : Int) := by
          simp [List.count_cons]
        have hlen : ((9 :: rest).length : Int) = (rest.length : Int) + 1 := by
          simp
        have hdist : ((rest.count 9 : Int) + 1) * w = (rest.count 9 : Int) * w + w := by
          ring
        have hnone : t2sLoop w m trim (fuel + 1) (9 :: rest) col cr
              = (if m = LineEndingMode.Lf ∧ cr then [13] else [])
                  ++ List.replicate (w - col).toNat 32
                  ++ t2sLoop w m trim fuel rest 0 false →
            ((t2sLoop w m trim (fuel + 1) (9 :: rest) col cr).length : Int)
              ≤ ((9 :: rest).length : Int) + ((9 :: rest).count 9 : Int) * w
                  + ((9 :: rest).count 10 : Int)
                  + (if m = LineEndingMode.Lf ∧ cr then 1 else 0) := by
          intro heq
          rw [heq, hc9, hc10, hlen, hdist]
          have hrec := ih rest 0 false le_rfl
          rw [if_neg (by simp)] at hrec
          have hrep : ((w - col).toNat : Int) ≤ w := by omega
          have hpre : (((if m = LineEndingMode.Lf ∧ cr then [13] else [] : List Nat)).length : Int)
              = if m = LineEndingMode.Lf ∧ cr then 1 else 0 :=
            length_if_single _ 13
          simp only [List.length_append, List.length_replicate]
          push_cast
          linarith
        cases htrim : trim with
        | false =>
          subst htrim
          exact hnone (t2sLoop_tab_none w m false fuel rest col cr (Or.inl rfl))
        | true =>
          subst htrim
          cases hpr : newlineProbe m (9 :: rest) false with
          | none =>
            exact hnone (t2sLoop_tab_none w m true fuel rest col cr (Or.inr hpr))
          | some nl =>
            rw [t2sLoop_tab_some w m fuel rest nl col cr hpr, hc9, hc10, hlen, hdist]
            have hs : List.IsSuffix nl rest := by
              rw [newlineProbe_sp_tab m 9 rest false (Or.inr rfl)] at hpr
              exact newlineProbe_suffix_false m rest nl hpr
            have h1 : (nl.length : Int) ≤ (rest.length : Int) := by
              exact_mod_cast hs.length_le
            have h2 : (nl.count 9 : Int) ≤ (rest.count 9 : Int) := by
              exact_mod_cast hs.sublist.count_le 9
            have h3 : (nl.count 10 : Int) ≤ (rest.count 10 : Int) := by
              exact_mod_cast hs.sublist.count_le 10
            have h2w : (nl.count 9 : Int) * w ≤ (rest.count 9 : Int) * w :=
              mul_le_mul_of_nonneg_right h2 (by omega)
            have hrec := ih nl col cr h0
            linarith
      · by_cases hb10 : b = 10
        · subst hb10
          rw [t2sLoop_lf w m trim fuel rest col cr]
          have hc9 : ((10 :: rest).count 9 : Int) = (rest.count 9 : Int) := by
            simp [List.count_cons]
          have hc10 : ((10 :: rest).count 10 : Int) = (rest.count 10 : Int) + 1 := by
            simp [List.count_cons]
          have hlen : ((10 :: rest).length : Int) = (rest.length : Int) + 1 := by
            simp
          rw [hc9, hc10, hlen]
          have hrec := ih rest 0 false le_rfl
          rw [if_neg (by simp)] at hrec
          have hBnn : (0 : Int) ≤ if m = LineEndingMode.Lf ∧ cr then 1 else 0 := by
            split_ifs <;> norm_num
          have hpre : (((if m = LineEndingMode.CrLf ∧ ¬cr then [13] else [] : List Nat)).length : Int)
              = if m = LineEndingMode.CrLf ∧ ¬cr then 1 else 0 :=
            length_if_single _ 13
          have hpre1 : (((if m = LineEndingMode.CrLf ∧ ¬cr then [13] else [] : List Nat)).length : Int)
              ≤ 1 := by
            rw [hpre]
            split_ifs <;> norm_num
          simp only [List.length_append, List.length_cons]
          push_cast
          linarith
        · cases hpr : (if trim ∧ b = 32 then newlineProbe m (b :: rest) false else none) with
          | some nl =>
            have hcase : trim = true ∧ b = 32 := by
              by_contra hc
              rw [if_neg (by intro h; exact hc ⟨by cases trim <;> simp_all, h.2⟩)] at hpr
              exact Option.noConfusion hpr
            obtain ⟨htr, hb32⟩ := hcase
            subst htr
            subst hb32
            rw [if_pos ⟨rfl, rfl⟩] at hpr
            rw [t2sLoop_sp_some w m fuel rest nl col cr hpr]
            have hs : List.IsSuffix nl rest := by
              rw [newlineProbe_sp_tab m 32 rest false (Or.inl rfl)] at hpr
              exact newlineProbe_suffix_false m rest nl hpr
            have h1 : (nl.length : Int) ≤ (rest.length : Int) := by
              exact_mod_cast hs.length_le
            have h2 : (nl.count 9 : Int) ≤ (rest.count 9 : Int) := by
              exact_mod_cast hs.sublist.count_le 9
            have h3 : (nl.count 10 : Int) ≤ (rest.count 10 : Int) := by
              exact_mod_cast hs.sublist.count_le 10
            have h2w : (nl.count 9 : Int) * w ≤ (rest.count 9 : Int) * w :=
              mul_le_mul_of_nonneg_right h2 (by omega)
            have hrec := ih nl col cr h0
            have hc9 : ((32 :: rest).count 9 : Int) = (rest.count 9 : Int) := by
              simp [List.count_cons]
            have hc10 : ((32 :: rest).count 10 : Int) = (rest.count 10 : Int) := by
              simp [List.count_cons]
            have hlen : ((32 :: rest).length : Int) = (rest.length : Int) + 1 := by
              simp
            rw [hc9, hc10, hlen]
            linarith
          | none =>
            have hor : ¬(trim = true ∧ b = 32) ∨ newlineProbe m (b :: rest) false = none := by
              by_cases hc : trim ∧ b = 32
              · right
                rw [if_pos hc] at hpr
                exact hpr
              · left
                intro hh
                exact hc ⟨hh.1, hh.2⟩
            rw [t2sLoop_other w m trim fuel b rest col cr hb9 hb10 hor]
            have hc9 : ((b :: rest).count 9 : Int) = (rest.count 9 : Int) := by
              simp [List.count_cons, hb9]
            have hc10 : ((b :: rest).count 10 : Int) = (rest.count 10 : Int) := by
              simp [List.count_cons, hb10]
            have hlen : ((b :: rest).length : Int) = (rest.length : Int) + 1 := by
              simp
            rw [hc9, hc10, hlen]
            have hrec := ih rest (columnAdvance w col b) (decide (b = 13))
              (columnAdvance_nonneg w col b h0)
            have hpre : (((if m = LineEndingMode.Lf ∧ cr then [13] else [] : List Nat)).length : Int)
                = if m = LineEndingMode.Lf ∧ cr then 1 else 0 :=
              length_if_single _ 13
            have hout : (((if ¬(m = LineEndingMode.Lf ∧ b = 13) then [b] else [] : List Nat)).length : Int)
                  + (if m = LineEndingMode.Lf ∧ (decide (b = 13) : Bool) then (1 : Int) else 0)
                = 1 := by
              rw [length_if_single _ b]
              by_cases hm : m = LineEndingMode.Lf ∧ b = 13
              · rw [if_neg (by simpa using hm), if_pos (by simpa using hm)]
                norm_num
              · rw [if_pos (by simpa using hm), if_neg (by simpa using hm)]
                norm_num
            simp only [List.length_append]
            push_cast
            linarith

/-! The loop never writes a tab byte: tabs are either elided by a successful
probe or expanded to spaces, and every other written byte is a CR, an LF, a
space, or a non-tab input byte. -/

theorem t2sLoop_no_tab (w : Int) (m : LineEndingMode) (trim : Bool) :
    ∀ (fuel : Nat) (l : List Nat) (col : Int) (cr : Bool),
      9 ∉ t2sLoop w m trim fuel l col cr := by
  intro fuel
  induction fuel with
  | zero =>
    intro l col cr
    rw [t2sLoop_zero_fuel]
    simp
  | succ fuel ih =>
    intro l col cr
    cases l with
    | nil =>
      rw [t2sLoop_nil]
      simp
    | cons b rest =>
      by_cases hb9 : b = 9
      · subst hb9
        cases htrim : trim with
        | false =>
          subst htrim
          rw [t2sLoop_tab_none w m false fuel rest col cr (Or.inl rfl)]
          intro hmem
          simp only [List.mem_append] at hmem
          rcases hmem with (hmem | hmem) | hmem
          · revert hmem; split_ifs <;> simp
          · exact absurd (List.eq_of_mem_replicate hmem) (by norm_num)
          · exact ih rest 0 false hmem
        | true =>
          subst htrim
          cases hpr : newlineProbe m (9 :: rest) false with
          | some nl =>
            rw [t2sLoop_tab_some w m fuel rest nl col cr hpr]
            exact ih nl col cr
          | none =>
            rw [t2sLoop_tab_none w m true fuel rest col cr (Or.inr hpr)]
            intro hmem
            simp only [List.mem_append] at hmem
            rcases hmem with (hmem | hmem) | hmem
            · revert hmem; split_ifs <;> simp
            · exact absurd (List.eq_of_mem_replicate hmem) (by norm_num)
            · exact ih rest 0 false hmem
      · by_cases hb10 : b = 10
        · subst hb10
          rw [t2sLoop_lf w m trim fuel rest col cr]
          intro hmem
          simp only [List.mem_append, List.mem_cons] at hmem
          rcases hmem with hmem | hmem | hmem
          · revert hmem; split_ifs <;> simp
          · exact absurd hmem (by norm_num)
          · exact ih rest 0 false hmem
        · cases hpr : (if trim ∧ b = 32 then newlineProbe m (b :: rest) false else none) with
          | some nl =>
            have hcase : trim = true ∧ b = 32 := by
              by_contra hc
              rw [if_neg (by intro h; exact hc ⟨h.1, h.2⟩)] at hpr
              exact Option.noConfusion hpr
            obtain ⟨htr, hb32⟩ := hcase
            subst htr
            subst hb32
            rw [if_pos ⟨rfl, rfl⟩] at hpr
            rw [t2sLoop_sp_some w m fuel rest nl col cr hpr]
            exact ih nl col cr
          | none =>
            have hor : ¬(trim = true ∧ b = 32) ∨ newlineProbe m (b :: rest) false = none := by
              by_cases hc : trim ∧ b = 32
              · right
                rw [if_pos hc] at hpr
                exact hpr
              · left
                intro hh
                exact hc ⟨hh.1, hh.2⟩
            rw [t2sLoop_other w m trim fuel b rest col cr hb9 hb10 hor]
            intro hmem
            simp only [List.mem_append] at hmem
            rcases hmem with (hmem | hmem) | hmem
            · revert hmem; split_ifs <;> simp
            · revert hmem; split_ifs <;> simp
              intro h
              exact hb9 h.symm
            · exact ih rest (columnAdvance w col b) (decide (b = 13)) hmem

/-! With `Ignore` mode and trimming off, the loop copies its input verbatim
as long as the input has no tab byte. -/

theorem t2sLoop_ignore_notrim_id (w : Int) :
    ∀ (fuel : Nat) (l : List Nat) (col : Int) (cr : Bool),
      l.length ≤ fuel → 9 ∉ l →
      t2sLoop w LineEndingMode.Ignore false fuel l col cr = l := by
  intro fuel
  induction fuel with
  | zero =>
    intro l col cr hfuel _
    rw [t2sLoop_zero_fuel]
    cases l with
    | nil => rfl
    | cons b rest => simp at hfuel
  | succ fuel ih =>
    intro l col cr hfuel htab
    cases l with
    | nil => exact t2sLoop_nil w _ false _ col cr
    | cons b rest =>
      have hb9 : b ≠ 9 := fun h => htab (h ▸ List.mem_cons_self b rest)
      have htab' : 9 ∉ rest := fun h => htab (List.mem_cons_of_mem b h)
      have hfuel' : rest.length ≤ fuel := by
        simp only [List.length_cons] at hfuel
        omega
      by_cases hb10 : b = 10
      · subst hb10
        rw [t2sLoop_lf w _ false fuel rest col cr]
        rw [if_neg (by simp), ih rest 0 false hfuel' htab']
        rfl
      · rw [t2sLoop_other w _ false fuel b rest col cr hb9 hb10 (Or.inl (by simp))]
        rw [if_neg (by simp), if_pos (by simp), ih rest _ _ hfuel' htab']
        rfl

/-! Cleanliness of the output with trimming enabled: a list is
`noTrimmable` when the probe fails from every position of a space byte,
so a second pass over it (once tab-free) elides nothing. -/

/-- The probe fails from every suffix of `l` that starts with a space. -/
def noTrimmable (m : LineEndingMode) (l : List Nat) : Prop :=
  ∀ s : List Nat, List.IsSuffix (32 :: s) l → newlineProbe m (32 :: s) false = none

theorem noTrimmable_nil (m : LineEndingMode) : noTrimmable m [] := by
  intro s hs
  have := hs.length_le
  simp at this

theorem noTrimmable_of_cons (m : LineEndingMode) (b : Nat) (l : List Nat)
    (h : noTrimmable m (b :: l)) : noTrimmable m l :=
  fun s hs => h s (hs.trans (List.suffix_cons b l))

theorem noTrimmable_cons_of (m : LineEndingMode) (b : Nat) (l : List Nat)
    (hb : b ≠ 32) (h : noTrimmable m l) : noTrimmable m (b :: l) := by
  intro s hs
  rcases List.suffix_cons_iff.mp hs with heq | hs'
  · injection heq with h1 _
    exact absurd h1.symm hb
  · exact h s hs'

theorem noTrimmable_cons_sp (m : LineEndingMode) (l : List Nat)
    (h1 : newlineProbe m (32 :: l) false = none) (h : noTrimmable m l) :
    noTrimmable m (32 :: l) := by
  intro s hs
  rcases List.suffix_cons_iff.mp hs with heq | hs'
  · injection heq with _ h2
    rw [h2]
    exact h1
  · exact h s hs'

theorem suffix_replicate_sp_append (X : List Nat) :
    ∀ (k : Nat) (s : List Nat), List.IsSuffix s (List.replicate k 32 ++ X) →
      List.IsSuffix s X ∨ ∃ j, s = List.replicate j 32 ++ X := by
  intro k
  induction k with
  | zero =>
    intro s hs
    rw [List.replicate_zero, List.nil_append] at hs
    exact Or.inl hs
  | succ n ih =>
    intro s hs
    rw [List.replicate_succ, List.cons_append] at hs
    rcases List.suffix_cons_iff.mp hs with heq | hs'
    · right
      exact ⟨n + 1, by rw [heq, List.replicate_succ, List.cons_append]⟩
    · exact ih s hs'

theorem noTrimmable_replicate_append (m : LineEndingMode) (k : Nat) (X : List Nat)
    (hX : newlineProbe m X false = none) (hN : noTrimmable m X) :
    noTrimmable m (List.replicate k 32 ++ X) := by
  intro s hs
  rcases suffix_replicate_sp_append X k (32 :: s) hs with hs' | ⟨j, hj⟩
  · exact hN s hs'
  · rw [hj, newlineProbe_replicate_sp]
    exact hX

/-- A probe failure at the head of the remaining input survives the
transducer (in the non-`Lf` modes, where no byte is withheld): the probe
also fails at the head of the produced output. -/
theorem t2sLoop_preserves_probe_none (w : Int) (m : LineEndingMode)
    (hm : m ≠ LineEndingMode.Lf) :
    ∀ (fuel : Nat) (l : List Nat) (col : Int) (cr : Bool), l.length ≤ fuel →
      newlineProbe m l false = none →
      newlineProbe m (t2sLoop w m true fuel l col cr) false = none := by
  intro fuel
  induction fuel with
  | zero =>
    intro l col cr hfuel hprobe
    interval_cases hl : l.length
    have : l = [] := List.length_eq_zero.mp hl
    subst this
    simp [newlineProbe] at hprobe
  | succ fuel ih =>
    intro l col cr hfuel hprobe
    cases l with
    | nil => simp [newlineProbe] at hprobe
    | cons b rest =>
      have hfuel' : rest.length ≤ fuel := by
        simp only [List.length_cons] at hfuel
        omega
      have hpre : (if m = LineEndingMode.Lf ∧ cr then [13] else [] : List Nat) = [] := by
        rw [if_neg]
        intro h
        exact hm h.1
      by_cases hb9 : b = 9
      · subst hb9
        have hrest : newlineProbe m rest false = none := by
          rw [newlineProbe_sp_tab m 9 rest false (Or.inr rfl)] at hprobe
          exact hprobe
        rw [t2sLoop_tab_none w m true fuel rest col cr (Or.inr hprobe), hpre,
          List.nil_append, newlineProbe_replicate_sp]
        exact ih rest 0 false hfuel' hrest
      · by_cases hb10 : b = 10
        · subst hb10
          rw [newlineProbe_lf m rest false] at hprobe
          split at hprobe <;> exact Option.noConfusion hprobe
        · by_cases hb32 : b = 32
          · subst hb32
            have hrest : newlineProbe m rest false = none := by
              rw [newlineProbe_sp_tab m 32 rest false (Or.inl rfl)] at hprobe
              exact hprobe
            rw [t2sLoop_other w m true fuel 32 rest col cr hb9 hb10 (Or.inr hprobe),
              hpre, List.nil_append, if_pos (by intro h; exact hm h.1),
              List.singleton_append, newlineProbe_sp_tab m 32 _ false (Or.inl rfl)]
            exact ih rest (columnAdvance w col 32) (decide ((32 : Nat) = 13)) hfuel' hrest
          · by_cases hb13 : b = 13
            · subst hb13
              have hrest : newlineProbe m rest false = none := by
                rw [newlineProbe_cr m rest false] at hprobe
                exact newlineProbe_none_any_flag m rest true false hprobe
              rw [t2sLoop_other w m true fuel 13 rest col cr hb9 hb10
                  (Or.inl (by intro h; exact absurd h.2 (by norm_num))),
                hpre, List.nil_append, if_pos (by intro h; exact hm h.1),
                List.singleton_append, newlineProbe_cr]
              exact newlineProbe_none_any_flag m _ false true
                (ih rest (columnAdvance w col 13) (decide ((13 : Nat) = 13)) hfuel' hrest)
            · rw [t2sLoop_other w m true fuel b rest col cr hb9 hb10
                  (Or.inl (by intro h; exact hb32 h.2)),
                hpre, List.nil_append, if_pos (by intro h; exact hm h.1),
                List.singleton_append]
              exact newlineProbe_other m b _ false hb32 hb9 hb13 hb10

/-- With trimming enabled and a non-`Lf` mode, the transducer's output is
`noTrimmable`: every space in the output is eventually followed by a
non-whitespace byte before any LF, so a second pass trims nothing. -/
theorem t2sLoop_noTrimmable (w : Int) (m : LineEndingMode)
    (hm : m ≠ LineEndingMode.Lf) :
    ∀ (fuel : Nat) (l : List Nat) (col : Int) (cr : Bool), l.length ≤ fuel →
      noTrimmable m (t2sLoop w m true fuel l col cr) := by
  intro fuel
  induction fuel with
  | zero =>
    intro l col cr _
    rw [t2sLoop_zero_fuel]
    exact noTrimmable_nil m
  | succ fuel ih =>
    intro l col cr hfuel
    cases l with
    | nil =>
      rw [t2sLoop_nil]
      exact noTrimmable_nil m
    | cons b rest =>
      have hfuel' : rest.length ≤ fuel := by
        simp only [List.length_cons] at hfuel
        omega
      have hpre : (if m = LineEndingMode.Lf ∧ cr then [13] else [] : List Nat) = [] := by
        rw [if_neg]
        intro h
        exact hm h.1
      by_cases hb9 : b = 9
      · subst hb9
        cases hpr : newlineProbe m (9 :: rest) false with
        | some nl =>
          rw [t2sLoop_tab_some w m fuel rest nl col cr hpr]
          exact ih nl col cr
            (le_trans (newlineProbe_length_ws m 9 rest nl (Or.inr rfl) hpr) hfuel')
        | none =>
          rw [t2sLoop_tab_none w m true fuel rest col cr (Or.inr hpr), hpre,
            List.nil_append]
          have hrest : newlineProbe m rest false = none := by
            rw [newlineProbe_sp_tab m 9 rest false (Or.inr rfl)] at hpr
            exact hpr
          exact noTrimmable_replicate_append m _ _
            (t2sLoop_preserves_probe_none w m hm fuel rest 0 false hfuel' hrest)
            (ih rest 0 false hfuel')
      · by_cases hb10 : b = 10
        · subst hb10
          rw [t2sLoop_lf w m true fuel rest col cr]
          have hrec := noTrimmable_cons_of m 10 _ (by norm_num) (ih rest 0 false hfuel')
          split_ifs with hc
          · rw [List.singleton_append]
            exact noTrimmable_cons_of m 13 _ (by norm_num) hrec
          · rw [List.nil_append]
            exact hrec
        · by_cases hb32 : b = 32
          · subst hb32
            cases hpr : newlineProbe m (32 :: rest) false with
            | some nl =>
              rw [t2sLoop_sp_some w m fuel rest nl col cr hpr]
              exact ih nl col cr
                (le_trans (newlineProbe_length_ws m 32 rest nl (Or.inl rfl) hpr) hfuel')
            | none =>
              rw [t2sLoop_other w m true fuel 32 rest col cr hb9 hb10 (Or.inr hpr),
                hpre, List.nil_append, if_pos (by intro h; exact hm h.1),
                List.singleton_append]
              have hrest : newlineProbe m rest false = none := by
                rw [newlineProbe_sp_tab m 32 rest false (Or.inl rfl)] at hpr
                exact hpr
              refine noTrimmable_cons_sp m _ ?_ (ih rest _ _ hfuel')
              rw [newlineProbe_sp_tab m 32 _ false (Or.inl rfl)]
              exact t2sLoop_preserves_probe_none w m hm fuel rest _ _ hfuel' hrest
          · rw [t2sLoop_other w m true fuel b rest col cr hb9 hb10
                (Or.inl (by intro h; exact hb32 h.2)),
              hpre, List.nil_append, if_pos (by intro h; exact hm h.1),
              List.singleton_append]
            exact noTrimmable_cons_of m b _ hb32 (ih rest _ _ hfuel')

/-! In `CrLf` mode every written LF must be preceded by a written CR.
`lfOK prev out` states that property for the byte list `out`, where `prev`
records whether the byte written just before `out` was a CR. -/

/-- Every LF in the list is immediately preceded by a CR (`prev` says
whether the byte just before the list was a CR). -/
def lfOK : Bool → List Nat → Prop
  | _, [] => True
  | prev, b :: rest => (b = 10 → prev = true) ∧ lfOK (decide (b = 13)) rest

theorem lfOK_nil (prev : Bool) : lfOK prev [] := trivial

theorem lfOK_cons_of (prev : Bool) (b : Nat) (rest : List Nat) (hb : b ≠ 10)
    (h : lfOK (decide (b = 13)) rest) : lfOK prev (b :: rest) :=
  ⟨fun h10 => absurd h10 hb, h⟩

theorem lfOK_replicate_sp (Y : List Nat) :
    ∀ k : Nat, lfOK false Y → lfOK false (List.replicate k 32 ++ Y) := by
  intro k
  induction k with
  | zero =>
    intro h
    rw [List.replicate_zero, List.nil_append]
    exact h
  | succ n ih =>
    intro h
    rw [List.replicate_succ, List.cons_append]
    exact lfOK_cons_of false 32 _ (by norm_num) (ih h)

/-- In `CrLf` mode (with trimming), the output of the loop satisfies
`lfOK hasCr`: every emitted LF is immediately preceded by an emitted CR. -/
theorem t2sLoop_lfOK (w : Int) (hw : 1 ≤ w) :
    ∀ (fuel : Nat) (l : List Nat) (col : Int) (cr : Bool), 0 ≤ col → col < w →
      lfOK cr (t2sLoop w LineEndingMode.CrLf true fuel l col cr) := by
  intro fuel
  induction fuel with
  | zero =>
    intro l col cr _ _
    rw [t2sLoop_zero_fuel]
    exact lfOK_nil cr
  | succ fuel ih =>
    intro l col cr h0 hcol
    cases l with
    | nil =>
      rw [t2sLoop_nil]
      exact lfOK_nil cr
    | cons b rest =>
      by_cases hb9 : b = 9
      · subst hb9
        cases hpr : newlineProbe LineEndingMode.CrLf (9 :: rest) false with
        | some nl =>
          rw [t2sLoop_tab_some w _ fuel rest nl col cr hpr]
          exact ih nl col cr h0 hcol
        | none =>
          rw [t2sLoop_tab_none w _ true fuel rest col cr (Or.inr hpr),
            if_neg (by intro h; exact LineEndingMode.noConfusion h.1), List.nil_append]
          have hk : ∃ n, (w - col).toNat = n + 1 := by
            refine ⟨(w - col).toNat - 1, ?_⟩
            omega
          obtain ⟨n, hn⟩ := hk
          rw [hn, List.replicate_succ, List.cons_append]
          exact lfOK_cons_of cr 32 _ (by norm_num)
            (lfOK_replicate_sp _ n (ih rest 0 false le_rfl (by omega)))
      · by_cases hb10 : b = 10
        · subst hb10
          rw [t2sLoop_lf w _ true fuel rest col cr]
          cases cr with
          | true =>
            rw [if_neg (by simp), List.nil_append]
            exact ⟨fun _ => rfl, ih rest 0 false le_rfl (by omega)⟩
          | false =>
            rw [if_pos ⟨rfl, by simp⟩, List.singleton_append]
            exact lfOK_cons_of false 13 _ (by norm_num)
              ⟨fun _ => rfl, ih rest 0 false le_rfl (by omega)⟩
        · have hadv0 := columnAdvance_nonneg w col b h0
          have hadvlt := columnAdvance_lt w col b hw h0 hcol
          by_cases hb32 : b = 32
          · subst hb32
            cases hpr : newlineProbe LineEndingMode.CrLf (32 :: rest) false with
            | some nl =>
              rw [t2sLoop_sp_some w _ fuel rest nl col cr hpr]
              exact ih nl col cr h0 hcol
            | none =>
              rw [t2sLoop_other w _ true fuel 32 rest col cr hb9 hb10 (Or.inr hpr),
                if_neg (by intro h; exact LineEndingMode.noConfusion h.1),
                List.nil_append, if_pos (by intro h; exact LineEndingMode.noConfusion h.1),
                List.singleton_append]
              exact lfOK_cons_of cr 32 _ (by norm_num)
                (ih rest _ _ hadv0 hadvlt)
          · rw [t2sLoop_other w _ true fuel b rest col cr hb9 hb10
                (Or.inl (by intro h; exact hb32 h.2)),
              if_neg (by intro h; exact LineEndingMode.noConfusion h.1),
              List.nil_append, if_pos (by intro h; exact LineEndingMode.noConfusion h.1),
              List.singleton_append]
            exact lfOK_cons_of cr b _ hb10 (ih rest _ _ hadv0 hadvlt)

/-- Identity on clean input: with trimming and a non-`Lf` mode, the loop
copies verbatim any tab-free input on which no probe can succeed and
(in `CrLf` mode) in which every LF is already preceded by a CR. -/
theorem t2sLoop_clean_id (w : Int) (m : LineEndingMode)
    (hm : m ≠ LineEndingMode.Lf) :
    ∀ (fuel : Nat) (l : List Nat) (col : Int) (cr : Bool), l.length ≤ fuel →
      9 ∉ l → noTrimmable m l →
      (m = LineEndingMode.CrLf → lfOK cr l) →
      t2sLoop w m true fuel l col cr = l := by
  intro fuel
  induction fuel with
  | zero =>
    intro l col cr hfuel _ _ _
    cases l with
    | nil => exact t2sLoop_zero_fuel w m true [] col cr
    | cons b rest => simp at hfuel
  | succ fuel ih =>
    intro l col cr hfuel htab hclean hlf
    cases l with
    | nil => exact t2sLoop_nil w m true _ col cr
    | cons b rest =>
      have hb9 : b ≠ 9 := fun h => htab (h ▸ List.mem_cons_self b rest)
      have htab' : 9 ∉ rest := fun h => htab (List.mem_cons_of_mem b h)
      have hclean' : noTrimmable m rest := noTrimmable_of_cons m b rest hclean
      have hfuel' : rest.length ≤ fuel := by
        simp only [List.length_cons] at hfuel
        omega
      have hpre : (if m = LineEndingMode.Lf ∧ cr then [13] else [] : List Nat) = [] := by
        rw [if_neg]
        intro h
        exact hm h.1
      by_cases hb10 : b = 10
      · subst hb10
        rw [t2sLoop_lf w m true fuel rest col cr]
        rw [if_neg (by intro h; exact h.2 ((hlf h.1).1 rfl)), List.nil_append]
        rw [ih rest 0 false hfuel' htab' hclean'
          (fun hc => by simpa using (hlf hc).2)]
      · by_cases hb32 : b = 32
        · subst hb32
          have hpr : newlineProbe m (32 :: rest) false = none :=
            hclean rest (List.suffix_refl _)
          rw [t2sLoop_other w m true fuel 32 rest col cr hb9 hb10 (Or.inr hpr),
            hpre, List.nil_append, if_pos (by intro h; exact hm h.1),
            List.singleton_append]
          rw [ih rest _ _ hfuel' htab' hclean'
            (fun hc => by simpa using (hlf hc).2)]
        · rw [t2sLoop_other w m true fuel b rest col cr hb9 hb10
              (Or.inl (by intro h; exact hb32 h.2)),
            hpre, List.nil_append, if_pos (by intro h; exact hm h.1),
            List.singleton_append]
          rw [ih rest _ _ hfuel' htab' hclean' (fun hc => (hlf hc).2)]

/-- Idempotence of the loop for trimming with the `Ignore` and `CrLf`
modes: running the loop again over its own output copies it verbatim. -/
theorem t2sLoop_idempotent (w : Int) (m : LineEndingMode) (hw : 1 ≤ w)
    (hm : m = LineEndingMode.Ignore ∨ m = LineEndingMode.CrLf)
    (x : List Nat) :
    t2sLoop w m true (t2sLoop w m true x.length x 0 false).length
        (t2sLoop w m true x.length x 0 false) 0 false
      = t2sLoop w m true x.length x 0 false := by
  have hmlf : m ≠ LineEndingMode.Lf := by
    rcases hm with h | h <;> (subst h; intro hc; exact LineEndingMode.noConfusion hc)
  refine t2sLoop_clean_id w m hmlf _ _ 0 false le_rfl ?_ ?_ ?_
  · exact t2sLoop_no_tab w m true x.length x 0 false
  · exact t2sLoop_noTrimmable w m hmlf x.length x 0 false le_rfl
  · intro hc
    subst hc
    exact t2sLoop_lfOK w hw x.length x 0 false le_rfl (by omega)

/-! Claim theorems. -/

/-- C1: for every input byte sequence and every valid configuration
(`tabWidth >= 1`), the estimate `inputLength + tabCount * tabWidth + lfCount`
computed by `estimateOutputSize` is at least the length of the byte sequence
returned by `tabsToSpaces`; the estimator never under-estimates, so the
debug assertion that the written length never exceeds the estimate cannot
fire. -/
theorem estimate_never_underestimates (input : List Nat) (cfg : Config)
    (out : List Nat) (hw : 1 ≤ cfg.tabWidth) (hok : tabsToSpaces input cfg = Except.ok out) :
    (out.length : Int) ≤ estimateOutputSize input cfg.tabWidth cfg.lineEndingMode := by
  unfold tabsToSpaces at hok
  rw [if_neg (by omega)] at hok
  injection hok with hok
  subst hok
  have h := t2sLoop_length_le cfg.tabWidth cfg.lineEndingMode
    (decide (cfg.whitespaceBeforeNewLines = WhitespaceBeforeNewLines.Trim)) hw
    input.length input 0 false le_rfl
  rw [if_neg (by simp)] at h
  unfold estimateOutputSize
  dsimp only
  linarith

/-- Witness for C1 at a concrete input: `"\t\n"` with the default
configuration transforms to `"    \n"` of length 5, below the estimate
`2 + 1*4 + 1 = 7`. -/
theorem estimate_never_underestimates_witness :
    (([32, 32, 32, 32, 10] : List Nat).length : Int)
      ≤ estimateOutputSize [9, 10] 4 LineEndingMode.Ignore :=
  estimate_never_underestimates [9, 10]
    ⟨4, LineEndingMode.Ignore, WhitespaceBeforeNewLines.DoNotTrim⟩
    [32, 32, 32, 32, 10] (by norm_num) (by rfl)

/-- C2 (divergence witness): on input `"a\r"` in `NormalizeToLf` mode the
code returns `"a"` — the deferred trailing CR is dropped at end of input,
not flushed; the claim (and the spec) demand the output end with the CR. -/
theorem trailing_pending_cr_dropped_in_lf_mode :
    tabsToSpaces [97, 13] ⟨4, LineEndingMode.Lf, WhitespaceBeforeNewLines.DoNotTrim⟩
      = Except.ok [97] := rfl

/-- C3 (counterexample): the probe does not fail when it reaches the end of
the buffer without an LF — it returns the end position (`some []`) — and
consequently, with trimming enabled, a run of spaces/tabs at the end of the
input with no following LF is trimmed, not emitted. -/
theorem probe_succeeds_at_end_of_buffer :
    newlineProbe LineEndingMode.Ignore [32] false ≠ none
    ∧ tabsToSpaces [97, 32] ⟨4, LineEndingMode.Ignore, WhitespaceBeforeNewLines.Trim⟩
        = Except.ok [97]
    ∧ ([97] : List Nat) ≠ [97, 32] := by
  refine ⟨?_, rfl, by decide⟩
  intro h
  exact Option.noConfusion h

/-- C3 (amended): the probe fails exactly on encountering a byte other than
space, tab, CR or LF; on reaching the end of the buffer over whitespace it
succeeds, returning the buffer end, so a trailing whitespace run with no
following LF is elided when trimming is enabled (concrete instance:
`"a  \t"` trims to `"a"`). -/
theorem probe_failure_characterization :
    (∀ (m : LineEndingMode) (p : List Nat) (d : Nat) (r : List Nat) (c : Bool),
        (∀ x ∈ p, probeWs x) → ¬probeWs d → d ≠ 10 →
        newlineProbe m (p ++ d :: r) c = none)
    ∧ (∀ (m : LineEndingMode) (p : List Nat) (c : Bool),
        (∀ x ∈ p, probeWs x) → newlineProbe m p c = some [])
    ∧ tabsToSpaces (str2bytes "a  \t") ⟨4, LineEndingMode.Ignore, WhitespaceBeforeNewLines.Trim⟩
        = Except.ok (str2bytes "a") := by
  refine ⟨?_, ?_, rfl⟩
  · intro m p d r c hp hd hd10
    exact newlineProbe_none_of m p d r c hp hd hd10
  · intro m p c hp
    exact newlineProbe_all_ws m p c hp

/-- Witness for C3 (amended) at concrete inputs: the probe fails on
`" x"` (space then a letter) and succeeds with the end position on the
all-whitespace `" \r"`. -/
theorem probe_failure_characterization_witness :
    newlineProbe LineEndingMode.Ignore ([32] ++ 120 :: []) false = none
    ∧ newlineProbe LineEndingMode.Lf [32, 13] false = some [] :=
  ⟨probe_failure_characterization.1 LineEndingMode.Ignore [32] 120 [] false
      (by intro x hx; simp at hx; rw [hx]; exact Or.inl rfl)
      (by intro h; rcases h with h | h | h <;> norm_num at h)
      (by norm_num),
    probe_failure_characterization.2.1 LineEndingMode.Lf [32, 13] false
      (by intro x hx; rcases List.mem_cons.mp hx with h | h
          · rw [h]; exact Or.inl rfl
          · simp at h; rw [h]; exact Or.inr (Or.inr rfl))⟩

/-- C4 (counterexample): with trimming enabled and the fixed mode
`NormalizeToLf`, the transducer is not idempotent: `"x\r\r\n"` maps to
`"x\r\n"`, which maps again to `"x\n"` — collapsing CRLF pairs can create a
fresh CRLF pair out of a CR-CR-LF run. -/
theorem lf_trim_not_idempotent :
    tabsToSpaces [120, 13, 13, 10] ⟨4, LineEndingMode.Lf, WhitespaceBeforeNewLines.Trim⟩
        = Except.ok [120, 13, 10]
    ∧ tabsToSpaces [120, 13, 10] ⟨4, LineEndingMode.Lf, WhitespaceBeforeNewLines.Trim⟩
        = Except.ok [120, 10]
    ∧ ([120, 13, 10] : List Nat) ≠ [120, 10] :=
  ⟨rfl, rfl, by decide⟩

/-- C4 (amended): with trimming enabled, a valid tab width and a fixed
line-ending mode `Ignore` or `NormalizeToCrLf`, the transducer is
idempotent: `transform (transform x c) c = transform x c`. (The remaining
mode `NormalizeToLf` is excluded by the counterexample.) -/
theorem transform_idempotent_ignore_crlf (x : List Nat) (cfg : Config) (out : List Nat)
    (htrim : cfg.whitespaceBeforeNewLines = WhitespaceBeforeNewLines.Trim)
    (hmode : cfg.lineEndingMode = LineEndingMode.Ignore
      ∨ cfg.lineEndingMode = LineEndingMode.CrLf)
    (hok : tabsToSpaces x cfg = Except.ok out) :
    tabsToSpaces out cfg = Except.ok out := by
  unfold tabsToSpaces at hok ⊢
  by_cases hw : cfg.tabWidth < 1
  · rw [if_pos hw] at hok
    exact Except.noConfusion hok
  · rw [if_neg hw] at hok
    rw [if_neg hw]
    injection hok with hok
    subst hok
    rw [htrim]
    exact congrArg Except.ok
      (t2sLoop_idempotent cfg.tabWidth cfg.lineEndingMode (by omega) hmode x)

/-- Witness for C4 (amended) at a concrete input: `"a \n"` trims to
`"a\n"` under `Ignore`, and transforming `"a\n"` again is the identity. -/
theorem transform_idempotent_ignore_crlf_witness :
    tabsToSpaces [97, 10] ⟨4, LineEndingMode.Ignore, WhitespaceBeforeNewLines.Trim⟩
      = Except.ok [97, 10] :=
  transform_idempotent_ignore_crlf [97, 32, 10]
    ⟨4, LineEndingMode.Ignore, WhitespaceBeforeNewLines.Trim⟩
    [97, 10] rfl (Or.inl rfl) (by rfl)

/-- C5: a successful probe that found an LF elides up to the returned
position: in `Ignore` mode with a CR immediately preceding the LF the
elision point is just before that CR (the CRLF survives); in every other
case it is the LF itself (the CR, if any, is trimmed too). Concretely,
`"a \r\n"` with trimming maps to `"a\r\n"` under `Ignore` and to `"a\n"`
under `NormalizeToLf`. -/
theorem probe_elision_point :
    (∀ (m : LineEndingMode) (p r : List Nat),
        (∀ x ∈ p, probeWs x) → p.getLast? = some 13 → m = LineEndingMode.Ignore →
        newlineProbe m (p ++ 10 :: r) false = some (13 :: 10 :: r))
    ∧ (∀ (m : LineEndingMode) (p r : List Nat),
        (∀ x ∈ p, probeWs x) →
        (m ≠ LineEndingMode.Ignore ∨ p.getLast? ≠ some 13) →
        newlineProbe m (p ++ 10 :: r) false = some (10 :: r))
    ∧ tabsToSpaces (str2bytes "a \r\n") ⟨4, LineEndingMode.Ignore, WhitespaceBeforeNewLines.Trim⟩
        = Except.ok (str2bytes "a\r\n")
    ∧ tabsToSpaces (str2bytes "a \r\n") ⟨4, LineEndingMode.Lf, WhitespaceBeforeNewLines.Trim⟩
        = Except.ok (str2bytes "a\n") := by
  refine ⟨?_, ?_, rfl, rfl⟩
  · intro m p r hws hlast hm
    rw [newlineProbe_ws_append m p (10 :: r) false hws, newlineProbe_lf]
    have hflag : crFlag false p = true := by
      rw [crFlag_getLast, hlast]
      rfl
    rw [hflag, hm]
    rw [if_pos ⟨rfl, rfl⟩]
  · intro m p r hws hcond
    rw [newlineProbe_ws_append m p (10 :: r) false hws, newlineProbe_lf]
    rcases hcond with hm | hlast
    · rw [if_neg (by intro h; exact hm h.2)]
    · have hflag : crFlag false p = false := by
        rw [crFlag_getLast]
        cases hl : p.getLast? with
        | none => rfl
        | some y =>
          have hy : y ≠ 13 := by
            intro hy
            exact hlast (by rw [hl, hy])
          simp [hy]
      rw [if_neg (by intro h; rw [hflag] at h; exact Bool.noConfusion h.1)]

/-- Witness for C5 at concrete inputs: over `" \r\n"` the probe returns the
CR position in `Ignore` mode and the LF position in `NormalizeToLf` mode. -/
theorem probe_elision_point_witness :
    newlineProbe LineEndingMode.Ignore ([32, 13] ++ 10 :: [120]) false
        = some (13 :: 10 :: [120])
    ∧ newlineProbe LineEndingMode.Lf ([32, 13] ++ 10 :: [120]) false
        = some (10 :: [120]) :=
  ⟨probe_elision_point.1 LineEndingMode.Ignore [32, 13] [120]
      (by intro x hx; rcases List.mem_cons.mp hx with h | h
          · rw [h]; exact Or.inl rfl
          · simp at h; rw [h]; exact Or.inr (Or.inr rfl))
      (by rfl) rfl,
    probe_elision_point.2.1 LineEndingMode.Lf [32, 13] [120]
      (by intro x hx; rcases List.mem_cons.mp hx with h | h
          · rw [h]; exact Or.inl rfl
          · simp at h; rw [h]; exact Or.inr (Or.inr rfl))
      (Or.inl (by intro h; exact LineEndingMode.noConfusion h))⟩

/-- C6 (divergence witness): the three specified examples hold —
`"a\r\nb"` maps to `"a\nb"` under `NormalizeToLf`, `"a\nb"` maps to
`"a\r\nb"` under `NormalizeToCrLf`, `"a\r\nb"` is unchanged under
`Ignore` — but the universal claim that `NormalizeToLf` leaves every bare
CR untouched fails: a trailing bare CR is dropped (`"x\r"` maps to
`"x"`). -/
theorem line_ending_mode_behaviour :
    tabsToSpaces (str2bytes "a\r\nb") ⟨4, LineEndingMode.Lf, WhitespaceBeforeNewLines.DoNotTrim⟩
        = Except.ok (str2bytes "a\nb")
    ∧ tabsToSpaces (str2bytes "a\nb") ⟨4, LineEndingMode.CrLf, WhitespaceBeforeNewLines.DoNotTrim⟩
        = Except.ok (str2bytes "a\r\nb")
    ∧ tabsToSpaces (str2bytes "a\r\nb") ⟨4, LineEndingMode.Ignore, WhitespaceBeforeNewLines.DoNotTrim⟩
        = Except.ok (str2bytes "a\r\nb")
    ∧ tabsToSpaces [120, 13] ⟨4, LineEndingMode.Lf, WhitespaceBeforeNewLines.DoNotTrim⟩
        = Except.ok [120] :=
  ⟨rfl, rfl, rfl, rfl⟩

/-- C7: a tab byte outside a trimmed run is replaced by exactly
`tabWidth - (column mod tabWidth)` space bytes, advancing the column to the
next multiple of `tabWidth`; concretely `"\t"` with width 4 becomes four
spaces and `"a\tb"` becomes `"a"`, three spaces, `"b"`. -/
theorem tab_expansion_to_tab_stop :
    (∀ (w : Int) (m : LineEndingMode) (trim : Bool) (fuel : Nat) (rest : List Nat)
        (col : Int) (cr : Bool),
        1 ≤ w → 0 ≤ col → col < w →
        (trim = false ∨ newlineProbe m (9 :: rest) false = none) →
        t2sLoop w m trim (fuel + 1) (9 :: rest) col cr
          = (if m = LineEndingMode.Lf ∧ cr then [13] else [])
              ++ List.replicate (w - col % w).toNat 32
              ++ t2sLoop w m trim fuel rest 0 false)
    ∧ tabsToSpaces (str2bytes "\t") ⟨4, LineEndingMode.Ignore, WhitespaceBeforeNewLines.DoNotTrim⟩
        = Except.ok (str2bytes "    ")
    ∧ tabsToSpaces (str2bytes "a\tb") ⟨4, LineEndingMode.Ignore, WhitespaceBeforeNewLines.DoNotTrim⟩
        = Except.ok (str2bytes "a   b") := by
  refine ⟨?_, rfl, rfl⟩
  intro w m trim fuel rest col cr _ h0 hcol hnone
  rw [Int.emod_eq_of_lt h0 hcol]
  exact t2sLoop_tab_none w m trim fuel rest col cr hnone

/-- Witness for C7 at a concrete state: a tab at column 1 with width 4
expands to three spaces. -/
theorem tab_expansion_to_tab_stop_witness :
    t2sLoop 4 LineEndingMode.Ignore false 2 [9, 98] 1 false = [32, 32, 32, 98] := by
  have h := tab_expansion_to_tab_stop.1 4 LineEndingMode.Ignore false 1 [98] 1 false
    (by norm_num) (by norm_num) (by norm_num) (Or.inl rfl)
  rw [h]
  decide

/-- C8: `tabsToSpaces` fails exactly when `tabWidth < 1`, with the single
invalid-configuration error, before any input byte is processed (the error
carries no partial output); for `tabWidth >= 1` it returns the loop's
output without error. -/
theorem invalid_configuration_error_iff (input : List Nat) (cfg : Config) :
    (tabsToSpaces input cfg = Except.error invalidConfigMessage ↔ cfg.tabWidth < 1)
    ∧ (∀ e, tabsToSpaces input cfg = Except.error e → e = invalidConfigMessage)
    ∧ (1 ≤ cfg.tabWidth → tabsToSpaces input cfg
        = Except.ok (t2sLoop cfg.tabWidth cfg.lineEndingMode
            (decide (cfg.whitespaceBeforeNewLines = WhitespaceBeforeNewLines.Trim))
            input.length input 0 false)) := by
  unfold tabsToSpaces
  by_cases hw : cfg.tabWidth < 1
  · rw [if_pos hw]
    refine ⟨⟨fun _ => hw, fun _ => rfl⟩, ?_, ?_⟩
    · intro e he
      injection he with he
      exact he.symm
    · intro h
      omega
  · rw [if_neg hw]
    refine ⟨⟨fun h => Except.noConfusion h, fun h => absurd h hw⟩, ?_, fun _ => rfl⟩
    intro e he
    exact Except.noConfusion he

/-- Witness for C8 at concrete inputs: width 0 is rejected with the
invalid-configuration error, width 4 succeeds. -/
theorem invalid_configuration_error_iff_witness :
    tabsToSpaces [9] ⟨0, LineEndingMode.Ignore, WhitespaceBeforeNewLines.DoNotTrim⟩
        = Except.error invalidConfigMessage
    ∧ tabsToSpaces [9] ⟨4, LineEndingMode.Ignore, WhitespaceBeforeNewLines.DoNotTrim⟩
        = Except.ok [32, 32, 32, 32] := by
  constructor
  · exact (invalid_configuration_error_iff [9]
      ⟨0, LineEndingMode.Ignore, WhitespaceBeforeNewLines.DoNotTrim⟩).1.mpr (by norm_num)
  · rw [(invalid_configuration_error_iff [9]
      ⟨4, LineEndingMode.Ignore, WhitespaceBeforeNewLines.DoNotTrim⟩).2.2 (by norm_num)]
    rfl

/-- C9: on every step of the per-byte loop the column state stays in
`[0, tabWidth)`: the default-branch update `columnAdvance` keeps the range,
increments by at most 1, wraps to 0 on reaching `tabWidth`, and leaves the
column unchanged on CR and NUL bytes (the tab and LF branches of `t2sLoop`
reset the column to the in-range value 0 outright). -/
theorem column_invariant (w col : Int) (b : Nat) (hw : 1 ≤ w) (h0 : 0 ≤ col)
    (hcol : col < w) :
    0 ≤ columnAdvance w col b ∧ columnAdvance w col b < w
    ∧ (columnAdvance w col b = col ∨ columnAdvance w col b = col + 1
        ∨ columnAdvance w col b = 0)
    ∧ ((b = 0 ∨ b = 13) → columnAdvance w col b = col)
    ∧ ((b ≠ 0 ∧ b ≠ 13) ∧ col + 1 = w → columnAdvance w col b = 0) :=
  ⟨columnAdvance_nonneg w col b h0,
    columnAdvance_lt w col b hw h0 hcol,
    columnAdvance_le_succ w col b,
    fun hb => columnAdvance_zero_width w col b hb hcol,
    fun hb => columnAdvance_wrap w col b hb.1 hb.2⟩

/-- Witness for C9 at a concrete state: a printable byte at column 2 of
width 4 advances the column to 3, within range. -/
theorem column_invariant_witness :
    0 ≤ columnAdvance 4 2 97 ∧ columnAdvance 4 2 97 < 4
    ∧ (columnAdvance 4 2 97 = 2 ∨ columnAdvance 4 2 97 = 2 + 1
        ∨ columnAdvance 4 2 97 = 0)
    ∧ (((97 : Nat) = 0 ∨ (97 : Nat) = 13) → columnAdvance 4 2 97 = 2)
    ∧ (((97 : Nat) ≠ 0 ∧ (97 : Nat) ≠ 13) ∧ (2 : Int) + 1 = 4 → columnAdvance 4 2 97 = 0) :=
  column_invariant 4 2 97 (by norm_num) (by norm_num) (by norm_num)

/-- C10: on any input without a tab byte, with mode `Ignore`, trimming off
and a valid tab width, `tabsToSpaces` is the identity: every byte,
including NUL, bare CR, bare LF and CRLF, passes through unchanged. -/
theorem identity_on_tab_free_ignore_notrim (x : List Nat) (cfg : Config)
    (hmode : cfg.lineEndingMode = LineEndingMode.Ignore)
    (htrim : cfg.whitespaceBeforeNewLines = WhitespaceBeforeNewLines.DoNotTrim)
    (hw : 1 ≤ cfg.tabWidth) (htab : 9 ∉ x) :
    tabsToSpaces x cfg = Except.ok x := by
  unfold tabsToSpaces
  rw [if_neg (by omega), hmode, htrim]
  exact congrArg Except.ok
    (t2sLoop_ignore_notrim_id cfg.tabWidth x.length x 0 false le_rfl htab)

/-- Witness for C10 at a concrete input containing NUL, bare CR, CRLF and a
space: the bytes pass through unchanged. -/
theorem identity_on_tab_free_ignore_notrim_witness :
    tabsToSpaces [0, 97, 13, 10, 13, 32]
        ⟨4, LineEndingMode.Ignore, WhitespaceBeforeNewLines.DoNotTrim⟩
      = Except.ok [0, 97, 13, 10, 13, 32] :=
  identity_on_tab_free_ignore_notrim [0, 97, 13, 10, 13, 32]
    ⟨4, LineEndingMode.Ignore, WhitespaceBeforeNewLines.DoNotTrim⟩
    rfl rfl (by norm_num) (by decide)

end TabsToSpaces
